import Mathlib

/-!
# Verification of `ssx.py` (endnoteSSX)

A shallow embedding of the endnote-to-CSV extraction tool `src/ssx.py`.

The tool parses an Endnote XML dump into an element tree, walks every node
matching the path `records/record`, extracts seven named fields per record
(with per-field defaulting and one multi-value join), and writes the rows
to a CSV file with a fixed header.

The embedding below models:
* the parsed XML document (`Elem`), with `ElementTree`-style `findall`/`find`
  path lookup (simple tag paths, document order);
* the per-record field extraction of `main` (lines 75-106 of `ssx.py`),
  including the Python semantics it relies on: `x.text` may be `None`
  (modelled `Option String`) and `str.join` raises `TypeError` on a `None`
  item (modelled `Except String`);
* the CSV serialization of `save_to_CSV` (Python `csv.DictWriter` with the
  default dialect: comma delimiter, minimal quoting with `"` quote char
  doubled inside quoted fields, CRLF line terminator);
* a standard CSV reader (RFC-4180 style), used to state the round-trip
  property of the generated output;
* the input-validation / control-flow skeleton of `main`,
  `check_input_file` and `readable_file_path` over an abstract file system.
-/

set_option autoImplicit false

namespace Ssx

/-- A parsed XML element: a tag, optional text content (Python
`ElementTree` gives `elem.text is None` for an element with no text),
and a list of child elements in document order. -/
inductive Elem where
  | mk (tag : String) (text : Option String) (children : List Elem)

/-- The tag of an element. -/
def Elem.tag : Elem → String
  | .mk t _ _ => t

/-- The text of an element (`None` when the element has no text). -/
def Elem.text : Elem → Option String
  | .mk _ tx _ => tx

/-- The children of an element, in document order. -/
def Elem.children : Elem → List Elem
  | .mk _ _ cs => cs

/-- `ElementTree.findall` restricted to simple relative tag paths such as
`./contributors/authors/author/style`: all elements reachable from `e`
by following the successive tags, in document order. -/
def Elem.findAll (e : Elem) : List String → List Elem
  | [] => [e]
  | t :: ts => ((Elem.children e).filter (fun c => Elem.tag c = t)).flatMap
      (fun c => Elem.findAll c ts)

/-- `ElementTree.find`: the first element matching the path, if any. -/
def Elem.find (e : Elem) (path : List String) : Option Elem :=
  (e.findAll path).head?

/-- The repeated guard of `ssx.py`:
`x.text if ((x is not None) and (x.text is not None)) else ''`,
where `x = rec.find(path)`.  Used for every single-valued field. -/
def resolveField (rec : Elem) (path : List String) : String :=
  match Elem.find rec path with
  | none => ""
  | some e =>
    match Elem.text e with
    | none => ""
    | some t => t

/-- The list comprehension
`[auth.text for auth in rec.findall('./contributors/authors/author/style')]`:
the (optional) texts of all author style nodes, in document order. -/
def authTexts (rec : Elem) : List (Option String) :=
  (Elem.findAll rec ["contributors", "authors", "author", "style"]).map Elem.text

/-- Python `sep.join(xs)` over a list whose items are `str` or `None`:
returns the joined string when every item is a string, and raises
`TypeError` as soon as an item is `None`. -/
def pyJoin (sep : String) (xs : List (Option String)) : Except String String :=
  if xs.all Option.isSome then
    Except.ok (String.intercalate sep (xs.filterMap id))
  else
    Except.error "TypeError: sequence item: expected str instance, NoneType found"

/-- The `Volume` composite field (lines 90-97 of `ssx.py`): the three
components are resolved independently, formatted as `volume:number:pages`,
and the degenerate `::` collapses to the empty string. -/
def volumeField (rec : Elem) : String :=
  let volume := resolveField rec ["volume", "style"]
  let number := resolveField rec ["number", "style"]
  let pages := resolveField rec ["pages", "style"]
  let vol_ref := volume ++ ":" ++ number ++ ":" ++ pages
  if vol_ref = "::" then "" else vol_ref

/-- One output row: the dict `line` built for each record, with its seven
fixed keys. -/
structure Row where
  authors : String
  pubDate : String
  journal : String
  title : String
  volume : String
  label : String
  workType : String
  deriving DecidableEq, Repr

/-- The per-record body of the extraction loop (lines 76-106 of `ssx.py`).
The only step that can raise is the `'; '.join` over the author texts; a
raised exception propagates out of the loop. -/
def extractRecord (rec : Elem) : Except String Row :=
  match pyJoin "; " (authTexts rec) with
  | Except.error e => Except.error e
  | Except.ok authors =>
    Except.ok
      { authors := authors
        pubDate := resolveField rec ["dates", "year", "style"]
        journal := resolveField rec ["titles", "secondary-title", "style"]
        title := resolveField rec ["titles", "title", "style"]
        volume := volumeField rec
        label := resolveField rec ["label", "style"]
        workType := resolveField rec ["work-type", "style"] }

/-- The extraction loop over a list of record nodes: rows are accumulated
in order; the first record whose extraction raises aborts the run. -/
def extractAll : List Elem → Except String (List Row)
  | [] => Except.ok []
  | r :: rs =>
    match extractRecord r with
    | Except.error e => Except.error e
    | Except.ok row =>
      match extractAll rs with
      | Except.error e => Except.error e
      | Except.ok rows => Except.ok (row :: rows)

/-- The record path used by `main`: `root.findall('./records/record')`. -/
def recordPath : List String := ["records", "record"]

/-- Full extraction: one row per node matching `records/record`, in
document order (lines 74-106 of `ssx.py`). -/
def extract (root : Elem) : Except String (List Row) :=
  extractAll (Elem.findAll root recordPath)

/-- The fixed CSV column names, in the order given to `csv.DictWriter`
(line 134 of `ssx.py`). -/
def fieldNames : List String :=
  ["Authors", "PubDate", "Title", "Journal", "Volume", "Label", "WorkType"]

/-- Dictionary lookup `line[key]` performed by `DictWriter` for each field
name (every row dict has exactly the seven keys, so the default is
unreachable). -/
def rowGet (r : Row) : String → String
  | "Authors" => r.authors
  | "PubDate" => r.pubDate
  | "Title" => r.title
  | "Journal" => r.journal
  | "Volume" => r.volume
  | "Label" => r.label
  | "WorkType" => r.workType
  | _ => ""

/-- The values of a row in the column order used by the writer. -/
def rowValues (r : Row) : List String :=
  fieldNames.map (rowGet r)

/-! ## CSV writer (`save_to_CSV`, `csv.DictWriter` default dialect)

`save_to_CSV` uses `csv.DictWriter` with the default dialect: delimiter
`,`, quote char `"`, minimal quoting (a field is quoted iff it contains
the delimiter, the quote char, or a character of the `\r\n` line
terminator, with embedded quote chars doubled), line terminator `\r\n`.
Fields are written at the character-list level. -/

/-- A character forcing a field to be quoted under minimal quoting. -/
def specialChar (c : Char) : Bool :=
  c = ',' || c = '"' || c = '\r' || c = '\n'

/-- Whether the writer must quote the field. -/
def needsQuote (s : List Char) : Bool :=
  s.any specialChar

/-- Double every quote character of a quoted field's content. -/
def escQuotes : List Char → List Char
  | [] => []
  | c :: cs => if c = '"' then '"' :: '"' :: escQuotes cs else c :: escQuotes cs

/-- Encode one field: quote it (doubling inner quotes) iff it contains a
special character, else write it verbatim. -/
def encField (s : List Char) : List Char :=
  if needsQuote s then '"' :: (escQuotes s ++ ['"']) else s

/-- Encode one row: fields separated by commas, terminated by CRLF.
(The rows written by `ssx.py` always have the seven fields, so the
single-empty-field corner of the Python writer never arises.) -/
def encRow : List (List Char) → List Char
  | [] => ['\r', '\n']
  | [v] => encField v ++ ['\r', '\n']
  | v :: vs => encField v ++ ',' :: encRow vs

/-- Encode a whole file: the concatenation of the encoded rows. -/
def encLines (rss : List (List (List Char))) : List Char :=
  (rss.map encRow).flatten

/-- `save_to_CSV` (lines 132-140 of `ssx.py`) as a function from the
extracted rows to the text written to the output file:
`writer.writeheader()` writes the field names as a row, then
`writer.writerows(lines)` writes each row's values in field-name order. -/
def save_to_CSV (rows : List Row) : String :=
  String.mk (encLines ((fieldNames :: rows.map rowValues).map (List.map String.data)))

/-! ## A standard CSV reader (RFC-4180 style)

Modelled from the spec: reading the output back with "a standard
delimited-text reader" (the reading side is not part of this repository).
A field is either quoted — content between `"` and `"`, a doubled `""`
standing for one quote char — or unquoted, running until the next comma,
CR or LF; rows are comma-separated fields terminated by CRLF. -/

/-- Parse the remainder of a quoted field (the opening quote already
consumed): returns the decoded content and the input after the closing
quote. `none` on an unterminated quote. -/
def parseQuoted : List Char → Option (List Char × List Char)
  | [] => none
  | c :: cs =>
    if c = '"' then
      match cs with
      | [] => some ([], [])
      | c2 :: cs2 =>
        if c2 = '"' then
          (parseQuoted cs2).map (fun p => ('"' :: p.1, p.2))
        else
          some ([], c2 :: cs2)
    else
      (parseQuoted cs).map (fun p => (c :: p.1, p.2))

/-- A character ending an unquoted field. -/
def stopChar (c : Char) : Bool :=
  c = ',' || c = '\r' || c = '\n'

/-- Parse an unquoted field: the longest prefix free of field-ending
characters, together with the rest of the input. -/
def parseUnquoted : List Char → List Char × List Char
  | [] => ([], [])
  | c :: cs =>
    if stopChar c then ([], c :: cs)
    else
      let p := parseUnquoted cs
      (c :: p.1, p.2)

/-- Parse one field: quoted if the input starts with a quote char, else
unquoted. -/
def parseField (cs : List Char) : Option (List Char × List Char) :=
  match cs with
  | [] => some ([], [])
  | c :: rest => if c = '"' then parseQuoted rest else some (parseUnquoted (c :: rest))

/-- Parse one row (fuelled): comma-separated fields up to and including a
CRLF terminator. -/
def parseRowAux : Nat → List Char → Option (List (List Char) × List Char)
  | 0, _ => none
  | fuel + 1, cs =>
    match parseField cs with
    | none => none
    | some (f, rest) =>
      match rest with
      | ',' :: rest2 =>
        match parseRowAux fuel rest2 with
        | none => none
        | some (fs, rest3) => some (f :: fs, rest3)
      | '\r' :: '\n' :: rest2 => some ([f], rest2)
      | _ => none

/-- Parse one CRLF-terminated row; the fuel `|cs| + 1` outruns the number
of fields. -/
def parseRow (cs : List Char) : Option (List (List Char) × List Char) :=
  parseRowAux (cs.length + 1) cs

/-- Parse a sequence of rows (fuelled) until the input is exhausted. -/
def parseLinesAux : Nat → List Char → Option (List (List (List Char)))
  | _, [] => some []
  | 0, _ => none
  | fuel + 1, cs =>
    match parseRow cs with
    | none => none
    | some (row, rest) =>
      match parseLinesAux fuel rest with
      | none => none
      | some rows => some (row :: rows)

/-- The standard CSV reader over a string: the list of rows, each a list
of field values. -/
def csvParse (s : String) : Option (List (List String)) :=
  (parseLinesAux (s.data.length + 1) s.data).map
    (fun rows => rows.map (fun r => r.map String.mk))

/-! ## Control-flow model of `main` / input validation

`os.path.isfile`, `os.access` and `xmlet.parse` act on the ambient file
system; it is modelled as an abstract state giving, per path, whether the
path names a readable file and what document (if any) it parses to. -/

/-- Abstract file system seen by one invocation. -/
structure FileSys where
  /-- `os.path.isfile apath`: the path names a regular file. -/
  isFile : String → Bool
  /-- `os.access apath os.R_OK`: the file is readable. -/
  canRead : String → Bool
  /-- Result of `xmlet.parse` on the path: the root element, or `none`
  for a `ParseError` (malformed document). -/
  parseResult : String → Option Elem

/-- `readable_file_path` (lines 122-124 of `ssx.py`): Python truthiness of
`apath and os.path.isfile(apath) and os.access(apath, os.R_OK)` —
the empty string is falsy. -/
def readable_file_path (fs : FileSys) (apath : String) : Bool :=
  (apath ≠ "") && fs.isFile apath && fs.canRead apath

/-- The exit code used by `check_input_file` when the input path is not a
readable file (default argument `exit_code=20`, lines 111-119). -/
def inputCheckExitCode : Nat := 20

/-- How one invocation of `main` ends. -/
inductive MainOutcome where
  /-- `sys.exit code` from `check_input_file`. -/
  | exited (code : Nat)
  /-- `xmlet.parse` raised `ParseError`. -/
  | parseError
  /-- The extraction loop raised (the `TypeError` of the author join). -/
  | extractError (msg : String)
  /-- Normal completion, with the text written to the output file. -/
  | ok (csv : String)
  deriving DecidableEq

/-- The post-argument-parsing behaviour of `main` (lines 60-108 of
`ssx.py`): validate the input path (exiting with code 20 on failure,
before any parsing), parse the document, run the extraction loop, and
only then open and write the output file.  The second component is the
content of the output path after the run, given its prior content
`prevOut`: it changes only on normal completion. -/
def runMain (fs : FileSys) (input_file : String) (prevOut : Option String) :
    MainOutcome × Option String :=
  if ¬ readable_file_path fs input_file then
    (MainOutcome.exited inputCheckExitCode, prevOut)
  else
    match fs.parseResult input_file with
    | none => (MainOutcome.parseError, prevOut)
    | some root =>
      match extract root with
      | Except.error msg => (MainOutcome.extractError msg, prevOut)
      | Except.ok rows => (MainOutcome.ok (save_to_CSV rows), some (save_to_CSV rows))

/-! ## Concrete sample documents

Small documents used to exercise the theorems on explicit inputs. -/

/-- An element with no text. -/
def el (tag : String) (cs : List Elem) : Elem := Elem.mk tag none cs

/-- A leaf element carrying text. -/
def lf (tag txt : String) : Elem := Elem.mk tag (some txt) []

/-- A fully populated record: two authors, all seven source paths. -/
def goodRecord : Elem :=
  el "record"
    [ el "contributors"
        [ el "authors"
            [ el "author" [lf "style" "Alice"]
            , el "author" [lf "style" "Bob"] ] ]
    , el "dates" [el "year" [lf "style" "2020"]]
    , el "titles"
        [ el "secondary-title" [lf "style" "Nature"]
        , el "title" [lf "style" "On Things"] ]
    , el "volume" [lf "style" "3"]
    , el "number" [lf "style" "2"]
    , el "pages" [lf "style" "10-20"]
    , el "label" [lf "style" "LBL"]
    , el "work-type" [lf "style" "article"] ]

/-- The row extracted from `goodRecord`. -/
def goodRow : Row :=
  { authors := "Alice; Bob", pubDate := "2020", journal := "Nature",
    title := "On Things", volume := "3:2:10-20", label := "LBL",
    workType := "article" }

/-- A record whose only author has a `style` leaf with no text
(`<style/>`, so `auth.text is None` in Python). -/
def badAuthorRecord : Elem :=
  el "record"
    [el "contributors" [el "authors" [el "author" [el "style" []]]]]

/-- A record with none of the expected sub-fields. -/
def plainRecord : Elem := el "record" []

/-- The all-empty row extracted from `plainRecord`. -/
def plainRow : Row :=
  { authors := "", pubDate := "", journal := "", title := "", volume := "",
    label := "", workType := "" }

/-- A document with two extractable records. -/
def sampleDoc : Elem := el "root" [el "records" [goodRecord, plainRecord]]

/-- A document whose single record makes the author join raise. -/
def badDoc : Elem := el "root" [el "records" [badAuthorRecord]]

/-- A well-formed document with zero records. -/
def emptyDoc : Elem := el "root" [el "records" []]

/-- A file system on which no path is a readable file and nothing parses. -/
def emptyFS : FileSys :=
  { isFile := fun _ => false, canRead := fun _ => false,
    parseResult := fun _ => none }

/-- A file system whose single file `in.xml` is readable but malformed. -/
def malformedFS : FileSys :=
  { isFile := fun p => p = "in.xml", canRead := fun p => p = "in.xml",
    parseResult := fun _ => none }

/-- A file system whose single readable file `in.xml` parses to `badDoc`,
on which extraction raises. -/
def badDocFS : FileSys :=
  { isFile := fun p => p = "in.xml", canRead := fun p => p = "in.xml",
    parseResult := fun p => if p = "in.xml" then some badDoc else none }

/-! ## Lemmas about the extraction loop -/

/-- The row produced by a successful record extraction, written out. -/
def expectedRow (rec : Elem) : Row :=
  { authors := String.intercalate "; " ((authTexts rec).filterMap id)
    pubDate := resolveField rec ["dates", "year", "style"]
    journal := resolveField rec ["titles", "secondary-title", "style"]
    title := resolveField rec ["titles", "title", "style"]
    volume := volumeField rec
    label := resolveField rec ["label", "style"]
    workType := resolveField rec ["work-type", "style"] }

theorem extractRecord_of_all (rec : Elem)
    (h : (authTexts rec).all Option.isSome = true) :
    extractRecord rec = Except.ok (expectedRow rec) := by
  simp [extractRecord, pyJoin, h, expectedRow]

theorem extractRecord_of_not_all (rec : Elem)
    (h : (authTexts rec).all Option.isSome = false) :
    extractRecord rec =
      Except.error "TypeError: sequence item: expected str instance, NoneType found" := by
  simp [extractRecord, pyJoin, h]

theorem extractRecord_ok_eq (rec : Elem) (row : Row)
    (h : extractRecord rec = Except.ok row) : row = expectedRow rec := by
  cases hb : (authTexts rec).all Option.isSome with
  | false => rw [extractRecord_of_not_all rec hb] at h; cases h
  | true =>
    rw [extractRecord_of_all rec hb] at h
    cases h
    rfl

theorem extractAll_ok (l : List Elem) (rows : List Row)
    (h : extractAll l = Except.ok rows) :
    rows.length = l.length ∧
    ∀ i (hl : i < l.length) (hr : i < rows.length),
      extractRecord l[i] = Except.ok rows[i] := by
  induction l generalizing rows with
  | nil =>
    simp only [extractAll] at h
    cases h
    simp
  | cons r rs ih =>
    cases h1 : extractRecord r with
    | error e => simp [extractAll, h1] at h
    | ok row =>
      cases h2 : extractAll rs with
      | error e => simp [extractAll, h1, h2] at h
      | ok rows' =>
        simp only [extractAll, h1, h2] at h
        cases h
        obtain ⟨hlen, hidx⟩ := ih rows' h2
        refine ⟨by simp [hlen], ?_⟩
        intro i hl hr
        cases i with
        | zero => simpa using h1
        | succ j =>
          simpa using hidx j (by simpa using hl) (by simpa using hr)

/-! ## Claims -/

/-- Claim C1, corrected, counterexample to the original statement: on the
well-formed document `badDoc`, which contains exactly one node matching
`records/record`, the extractor does not produce one row per record — it
aborts with a `TypeError`, so no row list (and no output) exists at all. -/
theorem extract_fails_on_textless_author :
    (Elem.findAll badDoc recordPath).length = 1 ∧
    extract badDoc =
      Except.error "TypeError: sequence item: expected str instance, NoneType found" :=
  ⟨rfl, rfl⟩

/-- Claim C1, amended: whenever the extraction loop completes (which is
exactly when no author `style` leaf lacks text, see C2), it produces one
row per node matching `records/record`: the row count equals the record
count and row `i` is the extraction of record `i` in document order. -/
theorem extract_one_row_per_record (root : Elem) (rows : List Row)
    (h : extract root = Except.ok rows) :
    rows.length = (Elem.findAll root recordPath).length ∧
    ∀ i (hl : i < (Elem.findAll root recordPath).length) (hr : i < rows.length),
      extractRecord (Elem.findAll root recordPath)[i] = Except.ok rows[i] := by
  have := extractAll_ok (Elem.findAll root recordPath) rows h
  exact ⟨this.1, this.2⟩

/-- Witness for C1: on `sampleDoc` (two records) the extractor returns
exactly two rows. -/
theorem extract_one_row_per_record_witness :
    ([goodRow, plainRow] : List Row).length =
      (Elem.findAll sampleDoc recordPath).length :=
  (extract_one_row_per_record sampleDoc [goodRow, plainRow] (by rfl)).1

/-- Claim C2, corrected, counterexample to the original statement: a record
whose single author has a `style` leaf with absent text does not contribute
an empty element to the Authors join — resolving the Authors field raises a
`TypeError` (Python `str.join` over a list containing `None`). -/
theorem author_join_raises :
    authTexts badAuthorRecord = [none] ∧
    extractRecord badAuthorRecord =
      Except.error "TypeError: sequence item: expected str instance, NoneType found" :=
  ⟨rfl, rfl⟩

/-- Claim C2, amended: per-field resolution of the six single-valued fields
and the three Volume components never raises (they are total, defaulting to
the empty string — see C6), and record extraction as a whole succeeds
exactly unless some matching author `style` node has absent text, in which
case the Authors join raises a `TypeError` instead of contributing an empty
join element. -/
theorem extractRecord_raises_iff_textless_author (rec : Elem) :
    ((∀ t ∈ authTexts rec, t ≠ none) → ∃ row, extractRecord rec = Except.ok row) ∧
    ((∃ t ∈ authTexts rec, t = none) →
      extractRecord rec =
        Except.error "TypeError: sequence item: expected str instance, NoneType found") := by
  constructor
  · intro hall
    refine ⟨expectedRow rec, extractRecord_of_all rec ?_⟩
    simp only [List.all_eq_true]
    intro t ht
    exact Option.isSome_iff_ne_none.mpr (hall t ht)
  · rintro ⟨t, ht, rfl⟩
    refine extractRecord_of_not_all rec ?_
    simp only [List.all_eq_false]
    exact ⟨none, ht, by simp⟩

/-- Witness for C2: extraction succeeds on `goodRecord` (all author texts
present) and raises on `badAuthorRecord` (one absent author text). -/
theorem extractRecord_raises_iff_textless_author_witness :
    (∃ row, extractRecord goodRecord = Except.ok row) ∧
    extractRecord badAuthorRecord =
      Except.error "TypeError: sequence item: expected str instance, NoneType found" :=
  ⟨(extractRecord_raises_iff_textless_author goodRecord).1 (by decide),
   (extractRecord_raises_iff_textless_author badAuthorRecord).2 (by decide)⟩

/-- A string of length zero is the empty string. -/
theorem str_eq_empty_of_length_zero (s : String) (h : s.length = 0) : s = "" := by
  cases s with
  | mk data =>
    have hd : data = [] := List.length_eq_zero.mp (by simpa [String.length] using h)
    rw [hd]

/-- The formatted `volume:number:pages` string degenerates to `::` exactly
when all three components are empty (the two separators contribute length
2, so total length 2 forces each component to length 0). -/
theorem vol_ref_eq_sep_iff (v n p : String) :
    v ++ ":" ++ n ++ ":" ++ p = "::" ↔ v = "" ∧ n = "" ∧ p = "" := by
  constructor
  · intro heq
    have hlen := congrArg String.length heq
    simp only [String.length_append] at hlen
    have hc : (":" : String).length = 1 := rfl
    have hs : ("::" : String).length = 2 := rfl
    rw [hc, hs] at hlen
    refine ⟨?_, ?_, ?_⟩ <;> · apply str_eq_empty_of_length_zero; omega
  · rintro ⟨rfl, rfl, rfl⟩
    rfl

/-- Claim C3, corrected, counterexample to the original statement: the
column order is not the §3 table order (Journal before Title); the writer's
field list places Title before Journal. -/
theorem column_order_not_spec_table :
    fieldNames = ["Authors", "PubDate", "Title", "Journal", "Volume", "Label", "WorkType"] ∧
    fieldNames ≠ ["Authors", "PubDate", "Journal", "Title", "Volume", "Label", "WorkType"] := by
  refine ⟨rfl, ?_⟩
  decide

/-- Claim C3, amended: the header and every row's values appear in the
column order Authors, PubDate, Title, Journal, Volume, Label, WorkType
(Title before Journal), for every input: the output of `save_to_CSV`
starts with that exact header line, and each row is serialized with its
values pulled in that field order. -/
theorem column_order_fixed (rows : List Row) (r : Row) :
    rowValues r =
      [r.authors, r.pubDate, r.title, r.journal, r.volume, r.label, r.workType] ∧
    ∃ rest, save_to_CSV rows =
      "Authors,PubDate,Title,Journal,Volume,Label,WorkType\r\n" ++ rest := by
  refine ⟨rfl, String.mk (encLines ((rows.map rowValues).map (List.map String.data))), ?_⟩
  rfl

/-- Claim C4 (confirmed): the Volume field is the string
`volume:number:pages` over the three independently resolved components,
except that it is the empty string when all three components are empty. -/
theorem volume_composite (rec : Elem) (row : Row)
    (h : extractRecord rec = Except.ok row) :
    row.volume =
      if resolveField rec ["volume", "style"] = "" ∧
          resolveField rec ["number", "style"] = "" ∧
          resolveField rec ["pages", "style"] = "" then ""
      else
        resolveField rec ["volume", "style"] ++ ":" ++
          resolveField rec ["number", "style"] ++ ":" ++
          resolveField rec ["pages", "style"] := by
  rw [extractRecord_ok_eq rec row h]
  show volumeField rec = _
  unfold volumeField
  simp only [vol_ref_eq_sep_iff]

/-- Witness for C4: on `goodRecord` (volume `3`, number `2`, pages `10-20`)
the Volume field is `3:2:10-20`. -/
theorem volume_composite_witness :
    (goodRow.volume =
      if resolveField goodRecord ["volume", "style"] = "" ∧
          resolveField goodRecord ["number", "style"] = "" ∧
          resolveField goodRecord ["pages", "style"] = "" then ""
      else
        resolveField goodRecord ["volume", "style"] ++ ":" ++
          resolveField goodRecord ["number", "style"] ++ ":" ++
          resolveField goodRecord ["pages", "style"]) ∧
    goodRow.volume = "3:2:10-20" :=
  ⟨volume_composite goodRecord goodRow (by rfl), rfl⟩

/-- A list of options all of which are present is the `some`-image of the
list of their values. -/
theorem eq_map_some_of_all_ne_none {l : List (Option String)}
    (h : ∀ t ∈ l, t ≠ none) : l = (l.filterMap id).map some := by
  induction l with
  | nil => rfl
  | cons a t ih =>
    obtain ⟨x, rfl⟩ := Option.ne_none_iff_exists'.mp (h a (by simp))
    simp only [List.filterMap_cons, id]
    simpa using ih (fun u hu => h u (by simp [hu]))

/-- Claim C5 (confirmed): for a record whose author `style` leaves all
carry text, the Authors field is exactly those texts, in document order,
joined with the separator `; `. -/
theorem authors_joined (rec : Elem) (row : Row)
    (hall : ∀ t ∈ authTexts rec, t ≠ none)
    (h : extractRecord rec = Except.ok row) :
    ∃ ts : List String, authTexts rec = ts.map some ∧
      row.authors = String.intercalate "; " ts := by
  refine ⟨(authTexts rec).filterMap id, eq_map_some_of_all_ne_none hall, ?_⟩
  rw [extractRecord_ok_eq rec row h]
  rfl

/-- Witness for C5: the two authors `Alice` and `Bob` of `goodRecord` are
joined as `Alice; Bob`. -/
theorem authors_joined_witness :
    (∃ ts : List String, authTexts goodRecord = ts.map some ∧
      goodRow.authors = String.intercalate "; " ts) ∧
    goodRow.authors = "Alice; Bob" :=
  ⟨authors_joined goodRecord goodRow (by decide) (by rfl), rfl⟩

/-- Claim C6 (confirmed): each single-valued field of an extracted row is
the `resolveField` of its path, and `resolveField` satisfies the spec's
rule for every path: if the path resolves to a node carrying non-empty
text the result is that text, otherwise (no node, or a node with absent
text — treated identically) it is the empty string. -/
theorem single_valued_fields (rec : Elem) (row : Row)
    (h : extractRecord rec = Except.ok row) :
    (row.pubDate = resolveField rec ["dates", "year", "style"] ∧
      row.journal = resolveField rec ["titles", "secondary-title", "style"] ∧
      row.title = resolveField rec ["titles", "title", "style"] ∧
      row.label = resolveField rec ["label", "style"] ∧
      row.workType = resolveField rec ["work-type", "style"]) ∧
    ∀ path : List String,
      ((∃ e t, Elem.find rec path = some e ∧ Elem.text e = some t ∧ t ≠ "" ∧
          resolveField rec path = t) ∨ resolveField rec path = "") ∧
      (Elem.find rec path = none → resolveField rec path = "") ∧
      (∀ e, Elem.find rec path = some e → Elem.text e = none →
        resolveField rec path = "") := by
  rw [extractRecord_ok_eq rec row h]
  refine ⟨⟨rfl, rfl, rfl, rfl, rfl⟩, ?_⟩
  intro path
  refine ⟨?_, ?_, ?_⟩
  · cases hf : Elem.find rec path with
    | none => right; simp [resolveField, hf]
    | some e =>
      cases ht : Elem.text e with
      | none => right; simp [resolveField, hf, ht]
      | some t =>
        by_cases hne : t = ""
        · right; simp [resolveField, hf, ht, hne]
        · exact Or.inl ⟨e, t, rfl, ht, hne, by simp [resolveField, hf, ht]⟩
  · intro hf; simp [resolveField, hf]
  · intro e hf ht; simp [resolveField, hf, ht]

/-- Witness for C6: `plainRecord` lacks the `dates/year/style` path
entirely, and its PubDate is the empty string. -/
theorem single_valued_fields_witness :
    plainRow.pubDate = resolveField plainRecord ["dates", "year", "style"] ∧
    resolveField plainRecord ["dates", "year", "style"] = "" :=
  ⟨((single_valued_fields plainRecord plainRow (by rfl)).1).1, by rfl⟩

/-- Claim C7 (confirmed): on a well-formed document with zero nodes
matching `records/record`, extraction yields no rows and the output file
content is exactly the single header line. -/
theorem zero_records_header_only (root : Elem)
    (h : Elem.findAll root recordPath = []) :
    extract root = Except.ok [] ∧
    save_to_CSV [] = "Authors,PubDate,Title,Journal,Volume,Label,WorkType\r\n" := by
  refine ⟨?_, by rfl⟩
  unfold extract
  rw [h]
  rfl

/-- Witness for C7: the zero-record document `emptyDoc`. -/
theorem zero_records_header_only_witness :
    extract emptyDoc = Except.ok [] ∧
    save_to_CSV [] = "Authors,PubDate,Title,Journal,Volume,Label,WorkType\r\n" :=
  zero_records_header_only emptyDoc (by rfl)

/-- Claim C9 (confirmed): when the input path does not name an existing
readable file, the run ends with the dedicated validation exit code 20 —
before the document is parsed, with the content at the output path left as
it was (in particular, none is created). -/
theorem invalid_input_exits_20 (fs : FileSys) (input_file : String)
    (prevOut : Option String)
    (h : readable_file_path fs input_file = false) :
    runMain fs input_file prevOut = (MainOutcome.exited 20, prevOut) := by
  unfold runMain
  simp [h, inputCheckExitCode]

/-- Witness for C9: a missing input path on the empty file system. -/
theorem invalid_input_exits_20_witness :
    runMain emptyFS "missing.xml" none = (MainOutcome.exited 20, none) :=
  invalid_input_exits_20 emptyFS "missing.xml" none (by rfl)

/-- Claim C10 (confirmed): the output file is written only after parsing
and the whole extraction loop have completed, so a malformed input document
(`ParseError`) or a raising extraction leaves a pre-existing file at the
output path entirely unchanged. -/
theorem output_untouched_on_failure (fs : FileSys) (input_file : String)
    (prevOut : Option String)
    (h : fs.parseResult input_file = none ∨
      ∃ root msg, fs.parseResult input_file = some root ∧
        extract root = Except.error msg) :
    (runMain fs input_file prevOut).2 = prevOut := by
  unfold runMain
  by_cases hr : readable_file_path fs input_file
  · rcases h with h | ⟨root, msg, hp, he⟩
    · simp [hr, h]
    · simp [hr, hp, he]
  · simp [hr]

/-! ## Round-trip of the CSV encoding -/

/-- Consequence of minimal quoting being off: no character of the field is
special. -/
theorem not_special_of_not_needsQuote {s : List Char} (h : needsQuote s = false) :
    ∀ c ∈ s, specialChar c = false := by
  intro c hc
  by_contra hne
  have : needsQuote s = true := by
    simp only [needsQuote, List.any_eq_true]
    exact ⟨c, hc, by revert hne; cases specialChar c <;> simp⟩
  rw [h] at this
  cases this

/-- Field-ending characters are special. -/
theorem specialChar_of_stopChar {c : Char} (h : stopChar c = true) :
    specialChar c = true := by
  simp only [stopChar, Bool.or_eq_true, decide_eq_true_eq] at h
  simp only [specialChar, Bool.or_eq_true, decide_eq_true_eq]
  tauto

/-- A non-special character is not the quote character. -/
theorem ne_quote_of_not_special {c : Char} (h : specialChar c = false) :
    c ≠ '"' := by
  intro hc
  subst hc
  simp [specialChar] at h

/-- A non-special character is not field-ending. -/
theorem not_stop_of_not_special {c : Char} (h : specialChar c = false) :
    stopChar c = false := by
  cases hs : stopChar c with
  | false => rfl
  | true => rw [specialChar_of_stopChar hs] at h; cases h

/-- Parsing a quoted field inverts quote-doubling: reading the escaped
content followed by the closing quote returns the original content, as
long as the character after the closing quote is not another quote. -/
theorem parseQuoted_escQuotes (s rest : List Char)
    (h : ∀ c cs, rest = c :: cs → c ≠ '"') :
    parseQuoted (escQuotes s ++ '"' :: rest) = some (s, rest) := by
  induction s with
  | nil =>
    cases hrest : rest with
    | nil => simp [escQuotes, parseQuoted]
    | cons c2 cs2 => simp [escQuotes, parseQuoted, h c2 cs2 hrest]
  | cons a s' ih =>
    by_cases ha : a = '"'
    · subst ha
      have he : escQuotes ('"' :: s') ++ '"' :: rest
          = '"' :: '"' :: (escQuotes s' ++ '"' :: rest) := by
        simp [escQuotes]
      rw [he]
      simp [parseQuoted, ih]
    · have he : escQuotes (a :: s') ++ '"' :: rest
          = a :: (escQuotes s' ++ '"' :: rest) := by
        simp [escQuotes, ha]
      rw [he, parseQuoted.eq_def]
      simp [ha, ih]

/-- Parsing an unquoted field stops exactly at the first field-ending
character: reading a stop-free field followed by a stop character (or the
end of input) returns the field. -/
theorem parseUnquoted_append (s rest : List Char)
    (hs : ∀ c ∈ s, stopChar c = false)
    (hrest : ∀ c cs, rest = c :: cs → stopChar c = true) :
    parseUnquoted (s ++ rest) = (s, rest) := by
  induction s with
  | nil =>
    cases hr : rest with
    | nil => simp [parseUnquoted]
    | cons c cs => simp [parseUnquoted, hrest c cs hr]
  | cons a s' ih =>
    have ha : stopChar a = false := hs a (by simp)
    simp [parseUnquoted, ha, ih (fun c hc => hs c (by simp [hc]))]

/-- Parsing inverts field encoding: a minimally-quoted field followed by a
comma or CR parses back to the original value. -/
theorem parseField_encField (s : List Char) (c : Char) (cs : List Char)
    (hc : c = ',' ∨ c = '\r') :
    parseField (encField s ++ c :: cs) = some (s, c :: cs) := by
  have hcq : c ≠ '"' := by rcases hc with rfl | rfl <;> decide
  have hcs : stopChar c = true := by rcases hc with rfl | rfl <;> decide
  by_cases hq : needsQuote s
  · have heq : encField s ++ c :: cs = '"' :: (escQuotes s ++ '"' :: (c :: cs)) := by
      simp [encField, hq, List.append_assoc]
    rw [heq]
    simp only [parseField, if_pos rfl]
    exact parseQuoted_escQuotes s (c :: cs) (fun d ds hd => by cases hd; exact hcq)
  · have hq' : needsQuote s = false := by revert hq; cases needsQuote s <;> simp
    have hspec := not_special_of_not_needsQuote hq'
    have heq : encField s ++ c :: cs = s ++ c :: cs := by simp [encField, hq']
    rw [heq]
    cases s with
    | nil =>
      simp only [List.nil_append, parseField, if_neg hcq]
      simp [parseUnquoted, hcs]
    | cons a s' =>
      have haq : a ≠ '"' := ne_quote_of_not_special (hspec a (by simp))
      simp only [List.cons_append, parseField, if_neg haq]
      have := parseUnquoted_append (a :: s') (c :: cs)
        (fun d hd => not_stop_of_not_special (hspec d hd))
        (fun d ds hd => by cases hd; exact hcs)
      simpa [List.cons_append] using this

/-- Parsing inverts row encoding: an encoded nonempty row followed by any
remainder parses back to the original field values, given enough fuel. -/
theorem parseRowAux_encRow (vs : List (List Char)) (rest : List Char) (fuel : Nat)
    (hne : vs ≠ []) (hfuel : vs.length ≤ fuel) :
    parseRowAux fuel (encRow vs ++ rest) = some (vs, rest) := by
  induction vs generalizing fuel rest with
  | nil => exact absurd rfl hne
  | cons v vs' ih =>
    cases fuel with
    | zero => simp at hfuel
    | succ f =>
      cases vs' with
      | nil =>
        have heq : encRow [v] ++ rest = encField v ++ '\r' :: '\n' :: rest := by
          simp [encRow, List.append_assoc]
        have hpf := parseField_encField v '\r' ('\n' :: rest) (Or.inr rfl)
        rw [heq]
        simp [parseRowAux, hpf]
      | cons w t =>
        have heq : encRow (v :: w :: t) ++ rest =
            encField v ++ ',' :: (encRow (w :: t) ++ rest) := by
          simp [encRow, List.append_assoc]
        have hpf := parseField_encField v ',' (encRow (w :: t) ++ rest) (Or.inl rfl)
        have hlen : (w :: t).length ≤ f := by
          simp only [List.length_cons] at hfuel ⊢
          omega
        have hih := ih rest f (by simp) hlen
        rw [heq]
        simp [parseRowAux, hpf, hih]

/-- An encoded row is nonempty. -/
theorem encRow_ne_nil (vs : List (List Char)) : encRow vs ≠ [] := by
  match vs with
  | [] => simp [encRow]
  | [v] => simp [encRow]
  | v :: w :: t => simp [encRow]

/-- A row has no more fields than its encoding has characters. -/
theorem length_le_encRow_length (vs : List (List Char)) :
    vs.length ≤ (encRow vs).length := by
  match vs with
  | [] => simp [encRow]
  | [v] => simp [encRow]
  | v :: w :: t =>
    have ih := length_le_encRow_length (w :: t)
    simp only [encRow, List.length_append, List.length_cons]
    simp only [List.length_cons] at ih
    omega

/-- A file has no more rows than its encoding has characters. -/
theorem length_le_encLines_length (rss : List (List (List Char))) :
    rss.length ≤ (encLines rss).length := by
  induction rss with
  | nil => simp [encLines]
  | cons r t ih =>
    have h1 : 1 ≤ (encRow r).length :=
      List.length_pos.mpr (encRow_ne_nil r)
    simp only [encLines, List.map_cons, List.flatten_cons, List.length_append,
      List.length_cons]
    simp only [encLines] at ih
    omega

/-- Parsing inverts file encoding: the concatenation of encoded nonempty
rows parses back to the original rows, given enough fuel. -/
theorem parseLinesAux_encLines (rss : List (List (List Char))) (fuel : Nat)
    (hne : ∀ r ∈ rss, r ≠ []) (hfuel : rss.length ≤ fuel) :
    parseLinesAux fuel (encLines rss) = some rss := by
  induction rss generalizing fuel with
  | nil =>
    have : encLines [] = [] := by simp [encLines]
    rw [this]
    cases fuel <;> rfl
  | cons r t ih =>
    cases fuel with
    | zero => simp at hfuel
    | succ f =>
      have hr : encLines (r :: t) = encRow r ++ encLines t := by simp [encLines]
      have hnil : encRow r ++ encLines t ≠ [] := by
        intro habs
        exact encRow_ne_nil r (List.append_eq_nil.mp habs).1
      obtain ⟨c, cs', hcons⟩ := List.exists_cons_of_ne_nil hnil
      have hprow : parseRow (encRow r ++ encLines t) = some (r, encLines t) := by
        apply parseRowAux_encRow r (encLines t) _ (hne r (by simp))
        calc r.length ≤ (encRow r).length := length_le_encRow_length r
          _ ≤ (encRow r ++ encLines t).length := by simp
          _ ≤ (encRow r ++ encLines t).length + 1 := Nat.le_succ _
      have hlen : t.length ≤ f := by
        simp only [List.length_cons] at hfuel
        omega
      have hih := ih f (fun x hx => hne x (by simp [hx])) hlen
      rw [hr, hcons]
      simp only [parseLinesAux]
      rw [← hcons]
      simp [hprow, hih]

/-- Re-packing the characters of a list of strings gives back the strings. -/
theorem map_mk_map_data (l : List String) :
    (l.map String.data).map String.mk = l := by
  induction l with
  | nil => rfl
  | cons s t ih =>
    simp only [List.map_cons, ih]

/-- The same, one level up, for a list of rows of strings. -/
theorem map_map_mk_map_map_data (X : List (List String)) :
    (X.map (List.map String.data)).map (fun r => r.map String.mk) = X := by
  induction X with
  | nil => rfl
  | cons x t ih =>
    simp only [List.map_cons, ih, map_mk_map_data]

/-- A serialized row is never field-free. -/
theorem rowValues_ne_nil (r : Row) : rowValues r ≠ [] := by
  simp [rowValues, fieldNames]

/-- Claim C8 (confirmed): reading the generated output with a standard CSV
reader yields exactly the header followed by the extracted rows, with the
same values in the same column order — the minimal-quoting encoding (quote
when a value holds the delimiter, a quote character or a line break,
doubling embedded quotes) round-trips for arbitrary string values. -/
theorem csv_round_trip (rows : List Row) :
    csvParse (save_to_CSV rows) = some (fieldNames :: rows.map rowValues) := by
  unfold csvParse save_to_CSV
  have hdata : ∀ l : List Char, (String.mk l).data = l := fun _ => rfl
  rw [hdata]
  have hne : ∀ r ∈ (fieldNames :: rows.map rowValues).map (List.map String.data),
      r ≠ [] := by
    intro r hr
    simp only [List.map_cons, List.mem_cons, List.mem_map] at hr
    rcases hr with rfl | ⟨x, hx, rfl⟩
    · simp [fieldNames]
    · rcases hx with ⟨q, _, rfl⟩
      simpa using rowValues_ne_nil q
  rw [parseLinesAux_encLines _ _ hne
    (le_trans (length_le_encLines_length _) (Nat.le_succ _))]
  simp only [Option.map_some']
  congr 1
  exact map_map_mk_map_map_data (fieldNames :: rows.map rowValues)

/-- Witness for C10: both failure modes, on concrete file systems holding a
pre-existing output `old`: a malformed document, and a document on which
extraction raises. -/
theorem output_untouched_on_failure_witness :
    (runMain malformedFS "in.xml" (some "old")).2 = some "old" ∧
    (runMain badDocFS "in.xml" (some "old")).2 = some "old" :=
  ⟨output_untouched_on_failure malformedFS "in.xml" (some "old") (Or.inl rfl),
   output_untouched_on_failure badDocFS "in.xml" (some "old")
    (Or.inr ⟨badDoc,
      "TypeError: sequence item: expected str instance, NoneType found", rfl, rfl⟩)⟩

end Ssx
